import Mathlib

/-!
# Verification of MedQueryAI frontend chat/citation logic and spec-modelled backend pieces

Shallow embedding of the React frontend of MedQueryAI:
* `ChatMessage.jsx`'s `extractCitations` (regex `\(Page\s+(\d+(?:,?\s*(?:and\s+)?\d+)*)\)`
  with flags `g`, `i`, scanned left-to-right),
* `ChatPanel.jsx`'s `handleSend` / `clearChat` and the disabled states of its inputs,
* `App.jsx`'s `handleUploadSuccess` / `handleUploadError` and conditional rendering,
* `UploadPanel.jsx`'s `onDrop`,
plus definitions modelled from the spec for the backend pieces that are not in the
source tree (conversation memory, citation `validate_and_fix`).

Strings are modelled as `List Char`.  JavaScript's `String.prototype.trim` and the
character classes `\s`, `\d` of the regex are embedded explicitly.
-/

/-- JavaScript whitespace, as used by `String.prototype.trim` and the regex class `\s`
(ASCII part plus NBSP; the claims below only ever exercise the ASCII part, and the
theorems do not depend on the exact extent of this set). -/
def isJsWs (c : Char) : Bool :=
  c = ' ' || c = '\t' || c = '\n' || c = '\r' || c = '\x0b' || c = '\x0c' || c = ' '

/-- The regex character class `\d`: ASCII digits. -/
def isAsciiDigit (c : Char) : Bool :=
  '0' ≤ c && c ≤ '9'

/-- JavaScript `String.prototype.trim`: strip leading and trailing whitespace. -/
def jsTrim (s : List Char) : List Char :=
  ((s.dropWhile isJsWs).reverse.dropWhile isJsWs).reverse

/-- Case-insensitive character comparison, for the regex flag `i`. -/
def ciEq (c d : Char) : Bool :=
  c.toLower = d.toLower

/-! ## The citation regex of `ChatMessage.jsx`

`/\(Page\s+(\d+(?:,?\s*(?:and\s+)?\d+)*)\)/gi`

For this pattern a greedy left-to-right match without backtracking is faithful to the
JavaScript engine: after `\s+`/`\s*` the continuation must start with a digit or with
`and`, which are disjoint from whitespace, so shrinking a greedy whitespace run can
never rescue a failed continuation; likewise after `\d+` the continuation starts with
`,`, whitespace, `and` or `)`, disjoint from digits; after an optional `,` the
continuation cannot start with `,`; and if the literal `and` is present but
`and\s+\d+` fails, the no-`and` alternative needs a digit where `a` stands, so it
fails too.  Each function below returns the consumed characters together with the
rest of the input. -/

/-- `,?` — consume one comma when present. -/
def parseComma (t : List Char) : List Char × List Char :=
  match t with
  | c :: r => if c = ',' then ([c], r) else ([], t)
  | [] => ([], t)

/-- `and\s+\d+` (case-insensitive `and`), the optional middle of one list item.
Returns the consumed characters and the rest, or `none` when it does not match. -/
def parseAnd (t : List Char) : Option (List Char × List Char) :=
  match t with
  | a :: n :: d :: r =>
    if ciEq a 'a' && ciEq n 'n' && ciEq d 'd' then
      let ws := r.takeWhile isJsWs
      let t2 := r.dropWhile isJsWs
      if ws.isEmpty then none
      else
        let ds := t2.takeWhile isAsciiDigit
        let t3 := t2.dropWhile isAsciiDigit
        if ds.isEmpty then none else some (a :: n :: d :: (ws ++ ds), t3)
    else none
  | _ => none

/-- One iteration of `(?:,?\s*(?:and\s+)?\d+)`. -/
def parseListItem (t : List Char) : Option (List Char × List Char) :=
  let comma := (parseComma t).1
  let t1 := (parseComma t).2
  let ws := t1.takeWhile isJsWs
  let t2 := t1.dropWhile isJsWs
  match parseAnd t2 with
  | some (cs, rest) => some (comma ++ ws ++ cs, rest)
  | none =>
    let ds := t2.takeWhile isAsciiDigit
    let t3 := t2.dropWhile isAsciiDigit
    if ds.isEmpty then none else some (comma ++ ws ++ ds, t3)

/-- The Kleene star `(?:,?\s*(?:and\s+)?\d+)*`, greedy.  Every successful iteration
consumes at least one digit, so fuel equal to the length of the input (supplied by
the callers) is never exhausted before the star stops by itself. -/
def parseListItems (fuel : Nat) (t : List Char) : List Char × List Char :=
  match fuel with
  | 0 => ([], t)
  | fuel + 1 =>
    match parseListItem t with
    | none => ([], t)
    | some (cs, rest) =>
      let p := parseListItems fuel rest
      (cs ++ p.1, p.2)

/-- `\s+(\d+(?:,?\s*(?:and\s+)?\d+)*)\)` — the tail of the citation pattern after the
literal `(Page`.  Returns `(whitespace, capture group 1, rest after the closing
parenthesis)`. -/
def parseCitationTail (t : List Char) : Option (List Char × List Char × List Char) :=
  let ws := t.takeWhile isJsWs
  let t1 := t.dropWhile isJsWs
  if ws.isEmpty then none
  else
    let ds := t1.takeWhile isAsciiDigit
    let t2 := t1.dropWhile isAsciiDigit
    if ds.isEmpty then none
    else
      let p := parseListItems t2.length t2
      match p.2 with
      | ')' :: r => some (ws, ds ++ p.1, r)
      | _ => none

/-- Attempt to match the whole citation regex at the start of `t`.  Returns
`(match[0], capture group 1, rest)`. -/
def matchCitationAt (t : List Char) : Option (List Char × List Char × List Char) :=
  match t with
  | o :: p :: a :: g :: e :: r =>
    if o = '(' && ciEq p 'p' && ciEq a 'a' && ciEq g 'g' && ciEq e 'e' then
      match parseCitationTail r with
      | some (ws, grp, rest) => some (o :: p :: a :: g :: e :: (ws ++ grp ++ [')']), grp, rest)
      | none => none
    else none
  | _ => none

/-- `regex.exec` with the `g` flag: find the leftmost match at or after the current
position.  Returns `(text before the match, match[0], capture group 1, rest)`. -/
def findCitation (t : List Char) : Option (List Char × List Char × List Char × List Char) :=
  match t with
  | [] => none
  | c :: cs =>
    match matchCitationAt (c :: cs) with
    | some (m, g, rest) => some ([], m, g, rest)
    | none =>
      match findCitation cs with
      | some (pre, m, g, rest) => some (c :: pre, m, g, rest)
      | none => none

/-- A part produced by `extractCitations`: `{type: 'text', content}` or
`{type: 'citation', content, pages}`. -/
inductive MsgPart where
  | text (content : List Char)
  | citation (content : List Char) (pages : List Char)
  deriving DecidableEq, Repr

/-- The `content` field of a part. -/
def MsgPart.content : MsgPart → List Char
  | .text c => c
  | .citation c _ => c

/-- The `while ((match = citationRegex.exec(text)) !== null)` loop of
`extractCitations`, operating on the text from `lastIndex` on.  Every match starts
with `(` so consumes at least one character, hence fuel equal to the length of the
whole text (supplied by `extractCitations`) is never exhausted. -/
def extractLoop (fuel : Nat) (t : List Char) : List MsgPart :=
  match findCitation t with
  | none => if t.isEmpty then [] else [.text t]
  | some (pre, m, g, rest) =>
    match fuel with
    | 0 => [.text t]
    | fuel + 1 =>
      (if pre.isEmpty then [] else [.text pre]) ++ .citation m g :: extractLoop fuel rest

/-- `extractCitations` of `ChatMessage.jsx`: split a message into text parts and
citation parts; an input producing no parts (the empty string) yields a single text
part holding the input. -/
def extractCitations (t : List Char) : List MsgPart :=
  let ps := extractLoop t.length t
  if ps.isEmpty then [.text t] else ps

/-! ## `ChatPanel.jsx`: transcript state and `handleSend` / `clearChat`

`handleSend` is `async`; one call runs the whole flow to completion (the guard, the
append of the user message, the `sendMessage` call, and — in `try`/`catch`/`finally`
— the append of the assistant or error message and the reset of `isLoading`).  The
backend's reply is passed in as an oracle value of type `BackendResult`. -/

/-- The `role` field of a transcript entry. -/
inductive ChatRole where
  | user
  | assistant
  deriving DecidableEq, Repr

/-- One entry of the `messages` state (the `sources` field of a successful reply is
irrelevant to every claim and omitted). -/
structure ChatMsg where
  role : ChatRole
  content : List Char
  timestamp : List Char
  deriving DecidableEq, Repr

/-- Outcome of the `await sendMessage(...)` call: a resolved response
`{answer, timestamp}` or a rejection. -/
inductive BackendResult where
  | ok (answer : List Char) (timestamp : List Char)
  | err
  deriving DecidableEq, Repr

/-- The local state of `ChatPanel`. -/
structure ChatState where
  messages : List ChatMsg
  inputValue : List Char
  isLoading : Bool
  deriving DecidableEq, Repr

/-- The hard-coded content of the error message appended in the `catch` branch. -/
def chatErrorText : List Char :=
  "Sorry, I encountered an error. Please make sure LM Studio is running and try again.".data

/-- `handleSend`, with `now` standing for `new Date().toISOString()` and `backend`
for the settled result of `sendMessage`.  Returns the new state together with
whether `sendMessage` was called. -/
def handleSend (st : ChatState) (now : List Char) (backend : BackendResult) :
    ChatState × Bool :=
  if (jsTrim st.inputValue).isEmpty || st.isLoading then (st, false)
  else
    let userMessage : ChatMsg := ⟨.user, st.inputValue, now⟩
    let st1 : ChatState := ⟨st.messages ++ [userMessage], [], true⟩
    match backend with
    | .ok answer ts =>
      (⟨st1.messages ++ [⟨.assistant, answer, ts⟩], st1.inputValue, false⟩, true)
    | .err =>
      (⟨st1.messages ++ [⟨.assistant, chatErrorText, now⟩], st1.inputValue, false⟩, true)

/-- `clearChat`: `setMessages([])`. -/
def clearChat (st : ChatState) : ChatState :=
  ⟨[], st.inputValue, st.isLoading⟩

/-- `setInputValue`, as fired by the textarea's `onChange` and by the example
question buttons. -/
def setInput (st : ChatState) (s : List Char) : ChatState :=
  ⟨st.messages, s, st.isLoading⟩

/-- The operations of `ChatPanel` that touch its state (`handleKeyPress` on plain
Enter just calls `handleSend` and is subsumed by `send`). -/
inductive ChatAction where
  | send (now : List Char) (backend : BackendResult)
  | typeInput (s : List Char)
  | clear
  deriving DecidableEq, Repr

/-- One step of the `ChatPanel` state machine. -/
def chatStep (st : ChatState) : ChatAction → ChatState
  | .send now backend => (handleSend st now backend).1
  | .typeInput s => setInput st s
  | .clear => clearChat st

/-- The initial `ChatPanel` state: `useState([])`, `useState('')`, `useState(false)`. -/
def chatInit : ChatState :=
  ⟨[], [], false⟩

/-- The disabled attributes of the `ChatPanel` input controls, as rendered:
textarea `disabled={!documentId || isLoading}`, Send button
`disabled={!inputValue.trim() || !documentId || isLoading}`.  `documentId` is the
prop handed down by `App`; JavaScript string truthiness makes `null` and `""`
falsy. -/
structure ChatPanelView where
  textareaDisabled : Bool
  sendDisabled : Bool
  deriving DecidableEq, Repr

/-- Truthiness of the `documentId` prop (`null` or a string). -/
def docTruthy : Option (List Char) → Bool
  | none => false
  | some s => !s.isEmpty

/-- Render the input controls of `ChatPanel`. -/
def renderChatPanel (documentId : Option (List Char)) (st : ChatState) : ChatPanelView :=
  { textareaDisabled := !docTruthy documentId || st.isLoading
    sendDisabled := (jsTrim st.inputValue).isEmpty || !docTruthy documentId || st.isLoading }

/-! ## `App.jsx` and `UploadPanel.jsx` -/

/-- The `/upload` response used by `handleUploadSuccess` (`document_id` plus the
stats shown in the Document Information card). -/
structure UploadResult where
  document_id : List Char
  filename : List Char
  page_count : Nat
  chunk_count : Nat
  deriving DecidableEq, Repr

/-- The state of `App` together with `UploadPanel`'s local state. -/
structure AppState where
  documentId : Option (List Char)
  documentInfo : Option UploadResult
  error : Option (List Char)
  uploadedFile : Option (List Char)
  isProcessing : Bool
  uploadProgress : Nat
  deriving DecidableEq, Repr

/-- `handleUploadSuccess` of `App.jsx`. -/
def handleUploadSuccess (st : AppState) (result : UploadResult) : AppState :=
  { st with documentId := some result.document_id, documentInfo := some result,
            error := none }

/-- `handleUploadError` of `App.jsx`. -/
def handleUploadError (st : AppState) (errorMessage : List Char) : AppState :=
  { st with error := some errorMessage, documentId := none, documentInfo := none }

/-- Outcome of the `await uploadPDF(...)` call: a resolved response or a rejection
carrying `error.response?.data?.detail` when present. -/
inductive UploadOutcome where
  | ok (result : UploadResult)
  | err (detail : Option (List Char))
  deriving DecidableEq, Repr

/-- `onDrop` of `UploadPanel.jsx`, run to completion (including the delayed
`finally` block, whose `setTimeout` is modelled as having fired).  `files` is the
`acceptedFiles` argument, each file by its name. -/
def onDrop (st : AppState) (files : List (List Char)) (outcome : UploadOutcome) :
    AppState :=
  match files with
  | [] => st
  | file :: _ =>
    let st1 : AppState := { st with uploadedFile := some file, isProcessing := true,
                                    uploadProgress := 0 }
    let st2 : AppState :=
      match outcome with
      | .ok result => { handleUploadSuccess st1 result with uploadProgress := 100 }
      | .err detail =>
        let msg := match detail with
          | some d => d
          | none => "Failed to upload PDF".data
        { handleUploadError st1 msg with uploadedFile := none }
    { st2 with isProcessing := false, uploadProgress := 0 }

/-- The initial `App`+`UploadPanel` state. -/
def appInit : AppState :=
  ⟨none, none, none, none, false, 0⟩

/-- What `App.jsx` renders around the chat: the `ChatPanel` is mounted only when
`documentId` is truthy (`{documentId ? <ChatPanel .../> : <placeholder/>}`). -/
def chatPanelShown (st : AppState) : Bool :=
  docTruthy st.documentId

/-! ## Spec-modelled backend: Conversation Memory (§4.5)

The backend module `memory.py` is not under the source tree (only the
documentation describes it), so it is modelled from the spec. -/

/-- One entry of a session transcript: `(role, text, timestamp)` (spec §3,
SessionMemory). -/
structure MemEntry where
  role : ChatRole
  text : List Char
  timestamp : List Char
  deriving DecidableEq, Repr

/-- Modelled from the spec: SessionMemory (§3), "keyed by session_id; ordered
sequence of (role, text, timestamp)".  A total map from session id to its entry
list; absent sessions are the empty list ("created on first turn"). -/
def SessionMemory : Type :=
  List Char → List MemEntry

/-- The empty memory store. -/
def memEmpty : SessionMemory :=
  fun _ => []

/-- Modelled from the spec: the eviction step of §4.5 — "strict FIFO at exchange
granularity — oldest (user,assistant) pair dropped first once capacity N exchanges
is exceeded".  Drops oldest pairs until at most `2 * cap` entries remain. -/
def trimExchanges (cap : Nat) (l : List MemEntry) : List MemEntry :=
  if _h : 2 * cap < l.length then
    trimExchanges cap (l.drop 2)
  else l
termination_by l.length
decreasing_by
  simp only [List.length_drop]
  omega

/-- Modelled from the spec: `append(session_id, role, text)` of §4.5, with the
capacity-`cap` eviction applied after the append. -/
def memAppend (cap : Nat) (m : SessionMemory) (sid : List Char) (e : MemEntry) :
    SessionMemory :=
  fun s => if s = sid then trimExchanges cap (m sid ++ [e]) else m s

/-- Modelled from the spec: `get(session_id)` of §4.5 — "ordered entries, oldest
first, ≤ 2N". -/
def memGet (m : SessionMemory) (sid : List Char) : List MemEntry :=
  m sid

/-- Modelled from the spec: `clear(session_id)` of §4.5. -/
def memClear (m : SessionMemory) (sid : List Char) : SessionMemory :=
  fun s => if s = sid then [] else m s

/-- One (user, assistant) exchange: question and answer texts with their
timestamps. -/
structure Exchange where
  question : List Char
  answer : List Char
  qTime : List Char
  aTime : List Char
  deriving DecidableEq, Repr

/-- The two entries a stored exchange contributes to the transcript. -/
def Exchange.entries (e : Exchange) : List MemEntry :=
  [⟨.user, e.question, e.qTime⟩, ⟨.assistant, e.answer, e.aTime⟩]

/-- Appending one exchange: the user entry, then the assistant entry (one turn of
the chat endpoint: "Store in memory (user question + answer)"). -/
def memAppendExchange (cap : Nat) (m : SessionMemory) (sid : List Char)
    (e : Exchange) : SessionMemory :=
  memAppend cap (memAppend cap m sid ⟨.user, e.question, e.qTime⟩) sid
    ⟨.assistant, e.answer, e.aTime⟩

/-- Appending a sequence of exchanges in order. -/
def memAppendExchanges (cap : Nat) (m : SessionMemory) (sid : List Char)
    (es : List Exchange) : SessionMemory :=
  es.foldl (fun acc e => memAppendExchange cap acc sid e) m

/-! ## Spec-modelled backend: Prompt/Citation Assembler (§4.6)

The backend citation post-processing (`validate_and_fix`) is not under the source
tree, so it is modelled from the spec.  The "recognizable page-citation" check uses
the spec's canonical formats "(Page N)" / "(Pages N, M, and K)": the frontend
matcher above, generalized by the optional plural `s`. -/

/-- Modelled from the spec: match one canonical citation — `(Page` or `(Pages`
(case-insensitive) followed by a whitespace-separated page list and `)` — at the
start of `t`; returns the page-list characters and the rest. -/
def matchSpecCitationAt (t : List Char) : Option (List Char × List Char) :=
  match t with
  | o :: p :: a :: g :: e :: r =>
    if o = '(' && ciEq p 'p' && ciEq a 'a' && ciEq g 'g' && ciEq e 'e' then
      match r with
      | s :: r2 =>
        if ciEq s 's' then
          match parseCitationTail r2 with
          | some (_, grp, rest) => some (grp, rest)
          | none =>
            match parseCitationTail r with
            | some (_, grp, rest) => some (grp, rest)
            | none => none
        else
          match parseCitationTail r with
          | some (_, grp, rest) => some (grp, rest)
          | none => none
      | [] => none
    else none
  | _ => none

/-- Whether a canonical page-citation pattern occurs anywhere in `t`. -/
def hasCitationPattern : List Char → Bool
  | [] => false
  | c :: cs => (matchSpecCitationAt (c :: cs)).isSome || hasCitationPattern cs

/-- Numeric value of a digit run. -/
def digitsToNat (ds : List Char) : Nat :=
  ds.foldl (fun acc c => 10 * acc + (c.toNat - '0'.toNat)) 0

/-- The page numbers referenced by a citation's page list: its maximal digit
runs, as numbers. -/
def splitNums : List Char → List Nat
  | [] => []
  | c :: cs =>
    if isAsciiDigit c then
      digitsToNat (c :: cs.takeWhile isAsciiDigit) :: splitNums (cs.dropWhile isAsciiDigit)
    else splitNums cs
termination_by l => l.length
decreasing_by
  all_goals simp only [List.length_cons]
  · have : (cs.dropWhile isAsciiDigit).length ≤ cs.length :=
      (List.dropWhile_sublist isAsciiDigit).length_le
    omega
  · omega

/-- Modelled from the spec: whether `generated_text` "already contains a
recognizable page-citation referencing ≥ 1 page present in RetrievedContext"
(§4.6), with the context abstracted to its list of source page numbers. -/
def citesContextPage (ctxPages : List Nat) : List Char → Bool
  | [] => false
  | c :: cs =>
    (match matchSpecCitationAt (c :: cs) with
     | some (grp, _) => (splitNums grp).any (fun n => ctxPages.contains n)
     | none => false) || citesContextPage ctxPages cs

/-- Insert a page into a sorted duplicate-free list, keeping it sorted and
duplicate-free. -/
def insertPage (n : Nat) : List Nat → List Nat
  | [] => [n]
  | m :: rest =>
    if n < m then n :: m :: rest
    else if n = m then m :: rest
    else m :: insertPage n rest

/-- Modelled from the spec: "the distinct `source_page_numbers` of
RetrievedContext, de-duplicated and sorted ascending" (§4.6). -/
def sortedPages (l : List Nat) : List Nat :=
  l.foldr insertPage []

/-- Decimal digits of a page number. -/
def natChars (n : Nat) : List Char :=
  (Nat.repr n).data

/-- Oxford-comma tail of a page list of length ≥ 2: each page preceded by `", "`,
the last by `", and "` — except that this function is only called after the first
page and a bare `", "` have been emitted, so it sees the remaining pages. -/
def joinMore : List Nat → List Char
  | [] => []
  | [k] => "and ".data ++ natChars k
  | m :: rest => natChars m ++ ", ".data ++ joinMore rest

/-- Modelled from the spec: the synthesized citation — `"(Page N)"` for a single
page, `"(Pages N, M, and K)"` (oxford-comma style, `"(Pages N and M)"` for two)
for several (§4.6 and the §8 test bullet). -/
def formatCitation : List Nat → List Char
  | [] => []
  | [n] => "(Page ".data ++ natChars n ++ [')']
  | [n, m] => "(Pages ".data ++ natChars n ++ " and ".data ++ natChars m ++ [')']
  | n :: rest => "(Pages ".data ++ natChars n ++ ", ".data ++ joinMore rest ++ [')']

/-- Modelled from the spec: `validate_and_fix(generated_text, RetrievedContext)`
of §4.6, with RetrievedContext abstracted to the pages carried by its chunks.  If a
recognizable citation referencing a context page is present, the text is returned
unchanged; if the context is empty, no citation is appended; otherwise the
synthesized citation over the de-duplicated, ascending pages is appended. -/
def validate_and_fix (generated : List Char) (ctxPages : List Nat) : List Char :=
  if citesContextPage ctxPages generated then generated
  else
    match sortedPages ctxPages with
    | [] => generated
    | ps => generated ++ formatCitation ps

/-! ## Lemmas: the citation scanner partitions its input -/

/-- Concatenation of the `content` fields of a part list. -/
def partsContent : List MsgPart → List Char
  | [] => []
  | p :: ps => p.content ++ partsContent ps

theorem partsContent_append (a b : List MsgPart) :
    partsContent (a ++ b) = partsContent a ++ partsContent b := by
  induction a with
  | nil => rfl
  | cons p ps ih => simp [partsContent, ih]

theorem parseComma_append (t : List Char) :
    (parseComma t).1 ++ (parseComma t).2 = t := by
  cases t with
  | nil => rfl
  | cons c r =>
    by_cases h : c = ','
    · simp [parseComma, h]
    · simp [parseComma, h]

theorem parseAnd_append (t cs rest : List Char) (h : parseAnd t = some (cs, rest)) :
    cs ++ rest = t := by
  match t with
  | [] => simp [parseAnd] at h
  | [_] => simp [parseAnd] at h
  | [_, _] => simp [parseAnd] at h
  | a :: n :: d :: r =>
    simp only [parseAnd] at h
    split at h
    · split at h
      · exact absurd h (by simp)
      · split at h
        · exact absurd h (by simp)
        · rw [Option.some.injEq, Prod.mk.injEq] at h
          obtain ⟨h1, h2⟩ := h
          subst h1; subst h2
          simp [List.takeWhile_append_dropWhile]
    · exact absurd h (by simp)

theorem parseListItem_append (t cs rest : List Char)
    (h : parseListItem t = some (cs, rest)) : cs ++ rest = t := by
  simp only [parseListItem] at h
  split at h
  · next cs' rest' heq =>
    rw [Option.some.injEq, Prod.mk.injEq] at h
    obtain ⟨h1, h2⟩ := h
    subst h1; subst h2
    have h3 := parseAnd_append _ _ _ heq
    calc ((parseComma t).1 ++ (parseComma t).2.takeWhile isJsWs ++ cs') ++ rest'
        = (parseComma t).1 ++ ((parseComma t).2.takeWhile isJsWs ++ (cs' ++ rest')) := by
          simp [List.append_assoc]
      _ = t := by
          rw [h3, List.takeWhile_append_dropWhile, parseComma_append]
  · split at h
    · exact absurd h (by simp)
    · rw [Option.some.injEq, Prod.mk.injEq] at h
      obtain ⟨h1, h2⟩ := h
      subst h1; subst h2
      calc ((parseComma t).1 ++ (parseComma t).2.takeWhile isJsWs ++
              ((parseComma t).2.dropWhile isJsWs).takeWhile isAsciiDigit) ++
              ((parseComma t).2.dropWhile isJsWs).dropWhile isAsciiDigit
          = (parseComma t).1 ++ ((parseComma t).2.takeWhile isJsWs ++
              (((parseComma t).2.dropWhile isJsWs).takeWhile isAsciiDigit ++
               ((parseComma t).2.dropWhile isJsWs).dropWhile isAsciiDigit)) := by
            simp [List.append_assoc]
        _ = t := by
            rw [List.takeWhile_append_dropWhile, List.takeWhile_append_dropWhile,
              parseComma_append]

theorem parseListItems_append (fuel : Nat) (t : List Char) :
    (parseListItems fuel t).1 ++ (parseListItems fuel t).2 = t := by
  induction fuel generalizing t with
  | zero => rfl
  | succ fuel ih =>
    simp only [parseListItems]
    split
    · rfl
    · next cs rest heq =>
      have h1 := parseListItem_append _ _ _ heq
      simp only []
      rw [List.append_assoc, ih rest, h1]

theorem parseCitationTail_append (t ws grp rest : List Char)
    (h : parseCitationTail t = some (ws, grp, rest)) :
    ws ++ grp ++ ')' :: rest = t := by
  simp only [parseCitationTail] at h
  split at h
  · exact absurd h (by simp)
  · split at h
    · exact absurd h (by simp)
    · split at h
      · next r heq =>
        rw [Option.some.injEq, Prod.mk.injEq, Prod.mk.injEq] at h
        obtain ⟨h1, h2, h3⟩ := h
        subst h1; subst h2; subst h3
        have h4 := parseListItems_append
          ((t.dropWhile isJsWs).dropWhile isAsciiDigit).length
          ((t.dropWhile isJsWs).dropWhile isAsciiDigit)
        rw [heq] at h4
        simp only [List.append_assoc, List.cons_append, List.nil_append]
        rw [h4, List.takeWhile_append_dropWhile, List.takeWhile_append_dropWhile]
      · exact absurd h (by simp)

theorem matchCitationAt_append (t m grp rest : List Char)
    (h : matchCitationAt t = some (m, grp, rest)) : m ++ rest = t ∧ m ≠ [] := by
  match t with
  | [] => simp [matchCitationAt] at h
  | [_] => simp [matchCitationAt] at h
  | [_, _] => simp [matchCitationAt] at h
  | [_, _, _] => simp [matchCitationAt] at h
  | [_, _, _, _] => simp [matchCitationAt] at h
  | o :: p :: a :: g :: e :: r =>
    simp only [matchCitationAt] at h
    split at h
    · split at h
      · next ws grp' rest' heq =>
        rw [Option.some.injEq, Prod.mk.injEq, Prod.mk.injEq] at h
        obtain ⟨h1, h2, h3⟩ := h
        subst h1; subst h2; subst h3
        refine ⟨?_, by simp⟩
        have h4 := parseCitationTail_append _ _ _ _ heq
        simp only [List.cons_append, List.append_assoc, List.cons.injEq, true_and]
        rw [← h4]
        simp [List.append_assoc]
      · exact absurd h (by simp)
    · exact absurd h (by simp)

theorem findCitation_append (t pre m grp rest : List Char)
    (h : findCitation t = some (pre, m, grp, rest)) : pre ++ m ++ rest = t := by
  induction t generalizing pre with
  | nil => simp [findCitation] at h
  | cons c cs ih =>
    simp only [findCitation] at h
    split at h
    · next m' g' rest' heq =>
      rw [Option.some.injEq, Prod.mk.injEq, Prod.mk.injEq, Prod.mk.injEq] at h
      obtain ⟨h1, h2, h3, h4⟩ := h
      subst h1; subst h2; subst h3; subst h4
      simpa using (matchCitationAt_append _ _ _ _ heq).1
    · split at h
      · next pre' m' g' rest' heq =>
        rw [Option.some.injEq, Prod.mk.injEq, Prod.mk.injEq, Prod.mk.injEq] at h
        obtain ⟨h1, h2, h3, h4⟩ := h
        subst h1; subst h2; subst h3; subst h4
        have := ih _ heq
        simp only [List.cons_append, List.cons.injEq, true_and]
        exact this
      · exact absurd h (by simp)

theorem extractLoop_eq_of_none (fuel : Nat) (t : List Char)
    (hf : findCitation t = none) :
    extractLoop fuel t = if t.isEmpty then [] else [.text t] := by
  cases fuel <;> rw [extractLoop.eq_def, hf]

theorem extractLoop_eq_of_some (fuel : Nat) (t pre m g rest : List Char)
    (hf : findCitation t = some (pre, m, g, rest)) :
    extractLoop (fuel + 1) t =
      (if pre.isEmpty then [] else [.text pre]) ++ .citation m g :: extractLoop fuel rest := by
  rw [extractLoop.eq_def, hf]

theorem partsContent_extractLoop (fuel : Nat) (t : List Char) :
    partsContent (extractLoop fuel t) = t := by
  induction fuel generalizing t with
  | zero =>
    cases hf : findCitation t with
    | none =>
      rw [extractLoop_eq_of_none 0 t hf]
      by_cases he : t.isEmpty
      · simp [he, List.isEmpty_iff.mp he, partsContent]
      · simp [he, partsContent, MsgPart.content]
    | some q =>
      obtain ⟨pre, m, g, rest⟩ := q
      have : extractLoop 0 t = [.text t] := by rw [extractLoop.eq_def, hf]
      rw [this]
      simp [partsContent, MsgPart.content]
  | succ fuel ih =>
    cases hf : findCitation t with
    | none =>
      rw [extractLoop_eq_of_none (fuel + 1) t hf]
      by_cases he : t.isEmpty
      · simp [he, List.isEmpty_iff.mp he, partsContent]
      · simp [he, partsContent, MsgPart.content]
    | some q =>
      obtain ⟨pre, m, g, rest⟩ := q
      have h1 := findCitation_append _ _ _ _ _ hf
      rw [extractLoop_eq_of_some fuel t pre m g rest hf, partsContent_append]
      by_cases hp : pre.isEmpty
      · rw [List.isEmpty_iff.mp hp] at h1
        simp only [List.isEmpty_iff.mp hp, List.isEmpty_nil, if_true, partsContent,
          MsgPart.content, List.nil_append]
        rw [ih]
        simpa using h1
      · simp only [hp, if_false, partsContent, MsgPart.content, List.append_nil,
          List.nil_append]
        rw [ih]
        simpa [List.append_assoc] using h1

/-! ## Claim theorems -/

/-- C9: `extractCitations` partitions its input: for every input string the returned
parts list is non-empty, concatenating the `content` fields of all parts in order
reproduces the input exactly, and an input on which the citation pattern never
matches yields a single text part equal to the input. -/
theorem extractCitations_partition (t : List Char) :
    extractCitations t ≠ [] ∧ partsContent (extractCitations t) = t ∧
      (findCitation t = none → extractCitations t = [MsgPart.text t]) := by
  refine ⟨?_, ?_, ?_⟩
  · simp only [extractCitations]
    split
    · simp
    · next h => simpa using h
  · simp only [extractCitations]
    split
    · next h =>
      have := partsContent_extractLoop t.length t
      rw [List.isEmpty_iff.mp h] at this
      simp [partsContent, MsgPart.content, ← this]
    · exact partsContent_extractLoop t.length t
  · intro hf
    simp only [extractCitations]
    rw [extractLoop_eq_of_none t.length t hf]
    by_cases he : t.isEmpty
    · simp [he]
    · simp [he]

/-- Witness for C9's conditional clause at a concrete no-citation input. -/
theorem extractCitations_partition_witness :
    extractCitations "hello".data = [MsgPart.text "hello".data] :=
  (extractCitations_partition "hello".data).2.2 (by decide)

/-- C1 (refuting evaluation): the frontend's `extractCitations` recognizes the
canonical single-page format "(Page N)" as a citation part, but renders the
canonical multi-page format "(Pages N, M, and K)" as plain text, because its regex
`\(Page\s+...` demands whitespace immediately after "Page" and therefore never
matches the plural "Pages". -/
theorem extractCitations_on_canonical_formats :
    extractCitations "(Page 9)".data =
      [MsgPart.citation "(Page 9)".data "9".data] ∧
    extractCitations "(Pages 9 and 12)".data =
      [MsgPart.text "(Pages 9 and 12)".data] := by
  constructor
  · decide
  · decide

/-- All-whitespace strings trim to the empty string. -/
theorem jsTrim_eq_nil_of_all_ws (s : List Char) (h : s.all isJsWs = true) :
    jsTrim s = [] := by
  have h1 : s.dropWhile isJsWs = [] :=
    List.dropWhile_eq_nil_iff.mpr (fun x hx => List.all_eq_true.mp h x hx)
  simp [jsTrim, h1]

/-- C2: submitting an empty or whitespace-only question is a no-op — `handleSend`
returns the state unchanged (in particular the transcript) and `sendMessage` is
never called (the `Bool` component is `false`). -/
theorem handleSend_blank_is_noop (st : ChatState) (now : List Char)
    (backend : BackendResult)
    (h : st.inputValue = [] ∨ st.inputValue.all isJsWs = true) :
    handleSend st now backend = (st, false) := by
  have hall : st.inputValue.all isJsWs = true := by
    cases h with
    | inl h => rw [h]; rfl
    | inr h => exact h
  have ht : (jsTrim st.inputValue).isEmpty = true := by
    rw [jsTrim_eq_nil_of_all_ws _ hall]; rfl
  unfold handleSend
  rw [ht]
  simp

/-- Witness for C2 at a whitespace-only input. -/
theorem handleSend_blank_is_noop_witness :
    handleSend ⟨[], "   ".data, false⟩ "t".data .err = (⟨[], "   ".data, false⟩, false) :=
  handleSend_blank_is_noop ⟨[], "   ".data, false⟩ "t".data .err (Or.inr (by decide))

/-- C6: when the backend call of a non-empty (after trimming) send rejects,
`handleSend` still appends an assistant entry reporting the error, right after the
already-appended user entry holding the question — and `sendMessage` was indeed
called. -/
theorem handleSend_error_appends_report (st : ChatState) (now : List Char)
    (h1 : (jsTrim st.inputValue).isEmpty = false) (h2 : st.isLoading = false) :
    (handleSend st now .err).1.messages =
      st.messages ++ [⟨.user, st.inputValue, now⟩, ⟨.assistant, chatErrorText, now⟩] ∧
    (handleSend st now .err).2 = true := by
  unfold handleSend
  rw [h1, h2]
  simp

/-- Witness for C6 at a concrete state. -/
theorem handleSend_error_appends_report_witness :
    (handleSend ⟨[], "q".data, false⟩ "t".data .err).1.messages =
      [] ++ [⟨.user, "q".data, "t".data⟩, ⟨.assistant, chatErrorText, "t".data⟩] ∧
    (handleSend ⟨[], "q".data, false⟩ "t".data .err).2 = true :=
  handleSend_error_appends_report ⟨[], "q".data, false⟩ "t".data (by decide) rfl

/-- C5: when the upload of a dropped file fails, `onDrop` (via `handleUploadError`)
leaves no partial document state: `documentId`, `documentInfo` and `uploadedFile`
are all `null` afterwards. -/
theorem upload_failure_resets_document_state (st : AppState)
    (files : List (List Char)) (detail : Option (List Char)) (h : files ≠ []) :
    (onDrop st files (.err detail)).documentId = none ∧
    (onDrop st files (.err detail)).documentInfo = none ∧
    (onDrop st files (.err detail)).uploadedFile = none := by
  match files with
  | [] => exact absurd rfl h
  | f :: fs => cases detail <;> simp [onDrop, handleUploadError]

/-- Witness for C5 at a concrete failing upload. -/
theorem upload_failure_resets_document_state_witness :
    (onDrop appInit ["a.pdf".data] (.err none)).documentId = none ∧
    (onDrop appInit ["a.pdf".data] (.err none)).documentInfo = none ∧
    (onDrop appInit ["a.pdf".data] (.err none)).uploadedFile = none :=
  upload_failure_resets_document_state appInit ["a.pdf".data] none (by decide)

/-- C10: with no document loaded (`documentId` null) the textarea and the Send
button are rendered disabled, any `App` state with `documentId` null does not mount
the chat panel at all, and in particular the initial state (before any successful
upload) does not. -/
theorem no_document_means_chat_disabled (chatSt : ChatState) (appSt : AppState)
    (h : appSt.documentId = none) :
    (renderChatPanel none chatSt).textareaDisabled = true ∧
    (renderChatPanel none chatSt).sendDisabled = true ∧
    chatPanelShown appSt = false ∧
    chatPanelShown appInit = false := by
  refine ⟨by simp [renderChatPanel, docTruthy], by simp [renderChatPanel, docTruthy],
    ?_, rfl⟩
  simp [chatPanelShown, h, docTruthy]

/-- Witness for C10 at the initial states. -/
theorem no_document_means_chat_disabled_witness :
    (renderChatPanel none chatInit).textareaDisabled = true ∧
    (renderChatPanel none chatInit).sendDisabled = true ∧
    chatPanelShown appInit = false ∧
    chatPanelShown appInit = false :=
  no_document_means_chat_disabled chatInit appInit rfl

/-- C7: `clearChat` empties the transcript, and every other `ChatPanel` operation
only appends — the previous transcript is a prefix of the new one, so entries are
never removed or reordered except by the explicit clear action. -/
theorem transcript_only_cleared_explicitly (st : ChatState) (a : ChatAction)
    (h : a ≠ ChatAction.clear) :
    (chatStep st .clear).messages = [] ∧
    st.messages <+: (chatStep st a).messages := by
  refine ⟨rfl, ?_⟩
  cases a with
  | clear => exact absurd rfl h
  | typeInput s => exact List.prefix_refl _
  | send now backend =>
    show st.messages <+: (handleSend st now backend).1.messages
    cases backend with
    | ok ans ts =>
      unfold handleSend
      split
      · exact List.prefix_refl _
      · exact ⟨[⟨.user, st.inputValue, now⟩, ⟨.assistant, ans, ts⟩], by simp⟩
    | err =>
      unfold handleSend
      split
      · exact List.prefix_refl _
      · exact ⟨[⟨.user, st.inputValue, now⟩, ⟨.assistant, chatErrorText, now⟩], by simp⟩

/-- Witness for C7 at a concrete non-clear action. -/
theorem transcript_only_cleared_explicitly_witness :
    (chatStep chatInit .clear).messages = [] ∧
    chatInit.messages <+: (chatStep chatInit (.typeInput "x".data)).messages :=
  transcript_only_cleared_explicitly chatInit (.typeInput "x".data) (by decide)

/-! ## C8: every completed send appends one user/assistant pair -/

/-- The assistant entry appended by `handleSend` after the backend call settles:
the answer on success, the hard-coded error report on rejection. -/
def assistantReply (b : BackendResult) (now : List Char) : ChatMsg :=
  match b with
  | .ok ans ts => ⟨.assistant, ans, ts⟩
  | .err => ⟨.assistant, chatErrorText, now⟩

/-- Strict user/assistant alternation beginning with a user entry. -/
def altUA : List ChatMsg → Bool
  | [] => true
  | [_] => false
  | x :: y :: rest =>
    x.role == ChatRole.user && y.role == ChatRole.assistant && altUA rest

theorem altUA_append_pair (l : List ChatMsg) (u a : ChatMsg)
    (hu : u.role = .user) (ha : a.role = .assistant) (h : altUA l = true) :
    altUA (l ++ [u, a]) = true := by
  induction l using altUA.induct with
  | case1 => simp [altUA, hu, ha]
  | case2 x => simp [altUA] at h
  | case3 x y rest ih =>
    simp only [altUA, Bool.and_eq_true] at h
    simp only [List.cons_append, altUA, Bool.and_eq_true]
    exact ⟨h.1, ih h.2⟩

theorem altUA_handleSend (st : ChatState) (now : List Char) (b : BackendResult)
    (h : altUA st.messages = true) :
    altUA (handleSend st now b).1.messages = true := by
  cases b with
  | ok ans ts =>
    unfold handleSend
    split
    · exact h
    · have := altUA_append_pair st.messages ⟨.user, st.inputValue, now⟩
        ⟨.assistant, ans, ts⟩ rfl rfl h
      simpa [List.append_assoc] using this
  | err =>
    unfold handleSend
    split
    · exact h
    · have := altUA_append_pair st.messages ⟨.user, st.inputValue, now⟩
        ⟨.assistant, chatErrorText, now⟩ rfl rfl h
      simpa [List.append_assoc] using this

/-- A sequence of user turns: for each, the typed question, the `now` timestamp of
the send, and the settled backend result; each turn types the question into the
input and runs `handleSend`. -/
def runSends (st : ChatState) (steps : List (List Char × List Char × BackendResult)) :
    ChatState :=
  steps.foldl (fun acc s => (handleSend (setInput acc s.1) s.2.1 s.2.2).1) st

theorem altUA_runSends (steps : List (List Char × List Char × BackendResult)) :
    ∀ st : ChatState, altUA st.messages = true →
      altUA (runSends st steps).messages = true := by
  induction steps with
  | nil => intro st h; exact h
  | cons s rest ih =>
    intro st h
    show altUA (runSends ((handleSend (setInput st s.1) s.2.1 s.2.2).1) rest).messages = true
    exact ih _ (altUA_handleSend (setInput st s.1) s.2.1 s.2.2 h)

/-- C8: a completed send of a question that survives the trim guard appends exactly
two entries — first the user entry holding the question, then an assistant entry —
whether the backend call succeeds or fails; consequently, after any sequence of
send turns from the initial (empty) transcript, entries strictly alternate
user/assistant beginning with user. -/
theorem handleSend_appends_user_assistant_pair (st : ChatState) (now : List Char)
    (b : BackendResult) (steps : List (List Char × List Char × BackendResult))
    (h1 : (jsTrim st.inputValue).isEmpty = false) (h2 : st.isLoading = false) :
    (handleSend st now b).1.messages =
      st.messages ++ [⟨.user, st.inputValue, now⟩, assistantReply b now] ∧
    (assistantReply b now).role = .assistant ∧
    altUA (runSends chatInit steps).messages = true := by
  refine ⟨?_, ?_, altUA_runSends steps chatInit rfl⟩
  · cases b with
    | ok ans ts => unfold handleSend; rw [h1, h2]; simp [assistantReply]
    | err => unfold handleSend; rw [h1, h2]; simp [assistantReply]
  · cases b <;> rfl

/-- Witness for C8 at a concrete state and a concrete two-turn sequence. -/
theorem handleSend_appends_user_assistant_pair_witness :
    (handleSend ⟨[], "q".data, false⟩ "t".data .err).1.messages =
      [] ++ [⟨.user, "q".data, "t".data⟩, assistantReply .err "t".data] ∧
    (assistantReply BackendResult.err "t".data).role = .assistant ∧
    altUA (runSends chatInit
      [("q1".data, "t1".data, .ok "a1".data "u1".data),
       ("q2".data, "t2".data, .err)]).messages = true :=
  handleSend_appends_user_assistant_pair ⟨[], "q".data, false⟩ "t".data .err
    [("q1".data, "t1".data, .ok "a1".data "u1".data), ("q2".data, "t2".data, .err)]
    (by decide) rfl

/-! ## C3: FIFO eviction at exchange granularity -/

/-- The transcript produced by a list of exchanges, in order. -/
def exchangesEntries : List Exchange → List MemEntry
  | [] => []
  | e :: rest => e.entries ++ exchangesEntries rest

theorem exchangesEntries_append (xs ys : List Exchange) :
    exchangesEntries (xs ++ ys) = exchangesEntries xs ++ exchangesEntries ys := by
  induction xs with
  | nil => rfl
  | cons e rest ih => simp [exchangesEntries, ih]

theorem exchangesEntries_length (xs : List Exchange) :
    (exchangesEntries xs).length = 2 * xs.length := by
  induction xs with
  | nil => rfl
  | cons e rest ih =>
    simp only [exchangesEntries, Exchange.entries, List.cons_append, List.nil_append,
      List.length_cons, ih]
    omega

theorem trimExchanges_of_le (cap : Nat) (l : List MemEntry) (h : l.length ≤ 2 * cap) :
    trimExchanges cap l = l := by
  rw [trimExchanges.eq_def, dif_neg (by omega)]

theorem trimExchanges_of_succ (cap : Nat) (l : List MemEntry)
    (h : l.length = 2 * cap + 1) : trimExchanges cap l = l.drop 2 := by
  rw [trimExchanges.eq_def, dif_pos (by omega)]
  exact trimExchanges_of_le cap (l.drop 2) (by simp only [List.length_drop]; omega)

theorem memAppendExchange_get (cap : Nat) (m : SessionMemory) (sid : List Char)
    (e : Exchange) :
    memAppendExchange cap m sid e sid =
      trimExchanges cap
        (trimExchanges cap (m sid ++ [⟨.user, e.question, e.qTime⟩]) ++
          [⟨.assistant, e.answer, e.aTime⟩]) := by
  simp [memAppendExchange, memAppend]

theorem exchangeStep_lt (cap : Nat) (xs : List Exchange) (e : Exchange)
    (h : xs.length < cap) :
    trimExchanges cap
        (trimExchanges cap (exchangesEntries xs ++ [⟨.user, e.question, e.qTime⟩]) ++
          [⟨.assistant, e.answer, e.aTime⟩]) =
      exchangesEntries (xs ++ [e]) := by
  have hl := exchangesEntries_length xs
  have h1 : trimExchanges cap
      (exchangesEntries xs ++ [(⟨.user, e.question, e.qTime⟩ : MemEntry)]) =
      exchangesEntries xs ++ [⟨.user, e.question, e.qTime⟩] :=
    trimExchanges_of_le cap _
      (by simp only [List.length_append, List.length_cons, List.length_nil, hl]; omega)
  rw [h1]
  have h2 : trimExchanges cap
      (exchangesEntries xs ++ [(⟨.user, e.question, e.qTime⟩ : MemEntry)] ++
        [(⟨.assistant, e.answer, e.aTime⟩ : MemEntry)]) =
      exchangesEntries xs ++ [⟨.user, e.question, e.qTime⟩] ++
        [⟨.assistant, e.answer, e.aTime⟩] :=
    trimExchanges_of_le cap _
      (by simp only [List.length_append, List.length_cons, List.length_nil, hl]; omega)
  rw [h2, exchangesEntries_append]
  simp [exchangesEntries, Exchange.entries]

theorem exchangeStep_eq (cap : Nat) (xs : List Exchange) (e : Exchange)
    (h : xs.length = cap) :
    trimExchanges cap
        (trimExchanges cap (exchangesEntries xs ++ [⟨.user, e.question, e.qTime⟩]) ++
          [⟨.assistant, e.answer, e.aTime⟩]) =
      exchangesEntries ((xs ++ [e]).drop 1) := by
  have hl := exchangesEntries_length xs
  cases xs with
  | nil =>
    have hcap : cap = 0 := by simpa using h.symm
    subst hcap
    have h1 : trimExchanges 0 (exchangesEntries ([] : List Exchange) ++
        [(⟨.user, e.question, e.qTime⟩ : MemEntry)]) = [] := by
      rw [trimExchanges_of_succ 0 _ (by simp [exchangesEntries])]
      simp [exchangesEntries]
    rw [h1]
    have h2 : trimExchanges 0 (([] : List MemEntry) ++
        [(⟨.assistant, e.answer, e.aTime⟩ : MemEntry)]) = [] := by
      rw [trimExchanges_of_succ 0 _ (by simp)]
      simp
    rw [h2]
    simp [exchangesEntries]
  | cons x xs' =>
    have hx : (exchangesEntries (x :: xs') ++
        [(⟨.user, e.question, e.qTime⟩ : MemEntry)]).length = 2 * cap + 1 := by
      simp only [List.length_append, List.length_cons, List.length_nil, hl]
      simp only [List.length_cons] at h ⊢
      omega
    rw [trimExchanges_of_succ cap _ hx]
    have hdrop : (exchangesEntries (x :: xs') ++
        [(⟨.user, e.question, e.qTime⟩ : MemEntry)]).drop 2 =
        exchangesEntries xs' ++ [⟨.user, e.question, e.qTime⟩] := by
      simp [exchangesEntries, Exchange.entries]
    rw [hdrop]
    have hlen2 : (exchangesEntries xs' ++ [(⟨.user, e.question, e.qTime⟩ : MemEntry)] ++
        [(⟨.assistant, e.answer, e.aTime⟩ : MemEntry)]).length ≤ 2 * cap := by
      have hl' := exchangesEntries_length xs'
      simp only [List.length_append, List.length_cons, List.length_nil, hl']
      simp only [List.length_cons] at h
      omega
    rw [trimExchanges_of_le cap _ hlen2]
    rw [show ((x :: xs') ++ [e]).drop 1 = xs' ++ [e] from by simp]
    rw [exchangesEntries_append]
    simp [exchangesEntries, Exchange.entries]

theorem memAppendExchanges_get_lt (cap : Nat) (es : List Exchange) :
    ∀ (m : SessionMemory) (sid : List Char) (xs : List Exchange),
      m sid = exchangesEntries xs → xs.length + es.length ≤ cap →
      memAppendExchanges cap m sid es sid = exchangesEntries (xs ++ es) := by
  induction es with
  | nil =>
    intro m sid xs hm _
    simpa [memAppendExchanges] using hm
  | cons e rest ih =>
    intro m sid xs hm hlen
    show memAppendExchanges cap (memAppendExchange cap m sid e) sid rest sid = _
    have hstep : (memAppendExchange cap m sid e) sid = exchangesEntries (xs ++ [e]) := by
      rw [memAppendExchange_get, hm]
      exact exchangeStep_lt cap xs e (by simp only [List.length_cons] at hlen; omega)
    have := ih (memAppendExchange cap m sid e) sid (xs ++ [e]) hstep
      (by simp only [List.length_append, List.length_cons, List.length_nil] at hlen ⊢; omega)
    simpa using this

theorem memAppendExchanges_append (cap : Nat) (m : SessionMemory) (sid : List Char)
    (l1 l2 : List Exchange) :
    memAppendExchanges cap m sid (l1 ++ l2) =
      memAppendExchanges cap (memAppendExchanges cap m sid l1) sid l2 := by
  simp [memAppendExchanges, List.foldl_append]

/-- C3: appending `capacity + 1` exchanges to a fresh session evicts strictly FIFO
at exchange granularity — `get` afterwards returns exactly the most recent
`capacity` exchanges, in order and oldest first, and holds no more than
`2 * capacity` entries. -/
theorem memory_fifo_eviction (cap : Nat) (sid : List Char) (es : List Exchange)
    (h : es.length = cap + 1) :
    memGet (memAppendExchanges cap memEmpty sid es) sid =
      exchangesEntries (es.drop 1) ∧
    (memGet (memAppendExchanges cap memEmpty sid es) sid).length ≤ 2 * cap := by
  have htake : (es.take cap).length = cap := by
    simp only [List.length_take]
    omega
  obtain ⟨elast, hd⟩ : ∃ elast, es.drop cap = [elast] := by
    have : (es.drop cap).length = 1 := by
      simp only [List.length_drop]
      omega
    match hh : es.drop cap with
    | [x] => exact ⟨x, rfl⟩
    | [] => rw [hh] at this; simp at this
    | x :: y :: r => rw [hh] at this; simp at this
  have hsplit : es = es.take cap ++ [elast] := by
    conv_lhs => rw [← List.take_append_drop cap es]
    rw [hd]
  have hphase1 : memAppendExchanges cap memEmpty sid (es.take cap) sid =
      exchangesEntries (es.take cap) := by
    have := memAppendExchanges_get_lt cap (es.take cap) memEmpty sid [] rfl
      (by simp [htake])
    simpa using this
  have hget : memGet (memAppendExchanges cap memEmpty sid es) sid =
      exchangesEntries (es.drop 1) := by
    rw [hsplit, memAppendExchanges_append]
    show (memAppendExchanges cap (memAppendExchanges cap memEmpty sid (es.take cap))
      sid [elast]) sid = _
    have hone : memAppendExchanges cap
        (memAppendExchanges cap memEmpty sid (es.take cap)) sid [elast] =
        memAppendExchange cap (memAppendExchanges cap memEmpty sid (es.take cap))
          sid elast := by
      simp [memAppendExchanges]
    rw [hone, memAppendExchange_get, hphase1,
      exchangeStep_eq cap (es.take cap) elast htake, ← hsplit]
  refine ⟨hget, ?_⟩
  rw [hget, exchangesEntries_length]
  simp only [List.length_drop]
  omega

/-- Witness for C3: capacity 1, two exchanges — the first is evicted. -/
theorem memory_fifo_eviction_witness :
    memGet (memAppendExchanges 1 memEmpty "s".data
        [⟨"q1".data, "a1".data, "t1".data, "t2".data⟩,
         ⟨"q2".data, "a2".data, "t3".data, "t4".data⟩]) "s".data =
      exchangesEntries
        (([⟨"q1".data, "a1".data, "t1".data, "t2".data⟩,
           ⟨"q2".data, "a2".data, "t3".data, "t4".data⟩] : List Exchange).drop 1) ∧
    (memGet (memAppendExchanges 1 memEmpty "s".data
        [⟨"q1".data, "a1".data, "t1".data, "t2".data⟩,
         ⟨"q2".data, "a2".data, "t3".data, "t4".data⟩]) "s".data).length ≤ 2 * 1 :=
  memory_fifo_eviction 1 "s".data
    [⟨"q1".data, "a1".data, "t1".data, "t2".data⟩,
     ⟨"q2".data, "a2".data, "t3".data, "t4".data⟩] (by decide)

/-! ## C4: `validate_and_fix` synthesizes the sorted, de-duplicated citation -/

theorem citesContextPage_false_of_no_pattern (ctx : List Nat) (t : List Char)
    (h : hasCitationPattern t = false) : citesContextPage ctx t = false := by
  induction t with
  | nil => rfl
  | cons c cs ih =>
    simp only [hasCitationPattern, Bool.or_eq_false_iff] at h
    simp only [citesContextPage, Bool.or_eq_false_iff]
    have hnone : matchSpecCitationAt (c :: cs) = none := by
      cases hm : matchSpecCitationAt (c :: cs) with
      | none => rfl
      | some v => rw [hm] at h; simp at h
    refine ⟨?_, ih h.2⟩
    rw [hnone]

/-- C4: for context pages `{9, 9, 12}` and a generated text containing no
recognizable citation pattern, `validate_and_fix` returns the text with exactly
`"(Pages 9 and 12)"` appended — the pages de-duplicated and sorted ascending. -/
theorem validate_and_fix_appends_sorted_pages (gen : List Char)
    (h : hasCitationPattern gen = false) :
    validate_and_fix gen [9, 9, 12] = gen ++ "(Pages 9 and 12)".data := by
  have hc : citesContextPage [9, 9, 12] gen = false :=
    citesContextPage_false_of_no_pattern [9, 9, 12] gen h
  unfold validate_and_fix
  rw [hc]
  simp only [Bool.false_eq_true, if_false]
  rw [show sortedPages [9, 9, 12] = [9, 12] from by decide]
  show gen ++ formatCitation [9, 12] = gen ++ "(Pages 9 and 12)".data
  rw [show formatCitation [9, 12] = "(Pages 9 and 12)".data from by decide]

/-- Witness for C4 at a concrete citation-free generated text. -/
theorem validate_and_fix_appends_sorted_pages_witness :
    validate_and_fix "The induction dose is 45 mg once daily.".data [9, 9, 12] =
      "The induction dose is 45 mg once daily.".data ++ "(Pages 9 and 12)".data :=
  validate_and_fix_appends_sorted_pages "The induction dose is 45 mg once daily.".data
    (by decide)
